import Mathlib

/-!
Verification of the soundcloud-bot repository (src/soundcloud_bot.py,
src/diagnose.py) against its natural-language specification.

Strings of the Python program are modelled as `List Char`; the filesystem,
the messaging transport and the clock are modelled by explicit parameters;
handlers that perform I/O are modelled as functions producing a trace of
events.
-/

namespace SCBot

/-! ### Filename sanitizer (`clean_filename`, soundcloud_bot.py lines 27-44) -/

/-- Python regex `\s` (whitespace), on the ASCII fragment of Unicode:
space, tab, newline, carriage return, vertical tab, form feed. -/
def pyIsSpace (c : Char) : Bool :=
  c = ' ' || c = '\t' || c = '\n' || c = '\r' || c = '\x0b' || c = '\x0c'

/-- Python regex `\w` (word character: alphanumeric or underscore).
Python matches `\w` over all of Unicode; this model covers the ASCII,
Latin-1 Supplement / Latin Extended letters and the Cyrillic block, which
is the fragment exercised by this program (Russian titles, accented
letters); every other code point is treated as a non-word character. -/
def pyIsWord (c : Char) : Bool :=
  c.isAlphanum || c = '_' ||
  (0xC0 ≤ c.toNat && c.toNat ≤ 0x24F && c.toNat ≠ 0xD7 && c.toNat ≠ 0xF7) ||
  (0x400 ≤ c.toNat && c.toNat ≤ 0x4FF)

/-- A character kept by the substitution `re.sub(r'[^\w\-]', '', name)`
(line 36): a word character or a hyphen. -/
def keptChar (c : Char) : Bool := pyIsWord c || c = '-'

/-- Split a list at the LAST occurrence of `sep`:
`lastSplit sep p = some (a, b)` iff `p = a ++ sep :: b` with `sep ∉ b`,
and `none` iff `sep ∉ p`.  Helper for `os.path.splitext`. -/
def lastSplit (sep : Char) : List Char → Option (List Char × List Char)
  | [] => none
  | c :: cs =>
    match lastSplit sep cs with
    | some (a, b) => some (c :: a, b)
    | none => if c = sep then some ([], cs) else none

/-- `os.path.splitext` on the part after the last path separator
(CPython `posixpath.splitext` with `sep = '/'`): split at the last dot,
except that dots that only lead the basename do not start an extension. -/
def splitextBase (base : List Char) : List Char × List Char :=
  if (base.dropWhile (fun c => c = '.')).contains '.' then
    match lastSplit '.' base with
    | some (a, b) => (a, '.' :: b)
    | none => (base, [])
  else (base, [])

/-- `os.path.splitext` (CPython `posixpath.splitext`): the extension is
taken from the basename, i.e. from the part after the last `'/'`. -/
def splitext (p : List Char) : List Char × List Char :=
  match lastSplit '/' p with
  | some (d, s) =>
    let be := splitextBase s
    (d ++ '/' :: be.1, be.2)
  | none => splitextBase p

/-- `re.sub(p+, r, l)`: replace every maximal run of characters satisfying
`p` by the single character `r`.  The flag records whether the previous
character belonged to a run (run continuations emit nothing). -/
def squashRun (p : Char → Bool) (r : Char) : Bool → List Char → List Char
  | _, [] => []
  | inRun, c :: cs =>
    if p c then
      (if inRun then [] else [r]) ++ squashRun p r true cs
    else
      c :: squashRun p r false cs

/-- `name.strip('_')` (line 42): drop leading and trailing underscores. -/
def stripUS (l : List Char) : List Char :=
  ((l.dropWhile (fun c => c = '_')).reverse.dropWhile (fun c => c = '_')).reverse

/-- The four-step pipeline applied to the extension-less name
(lines 33-42): whitespace runs to `'_'`, drop characters outside
`[\w-]`, collapse underscore runs, strip outer underscores. -/
def cleanBase (name : List Char) : List Char :=
  stripUS (squashRun (fun c => c = '_') '_' false
    ((squashRun pyIsSpace '_' false name).filter keptChar))

/-- `clean_filename` (lines 27-44): sanitize the base name and reattach
the original extension unchanged. -/
def clean_filename (filename : List Char) : List Char :=
  let ne := splitext filename
  cleanBase ne.1 ++ ne.2

/-- The character set `[A-Za-z0-9_-]` named by the specification
(`Char.isAlphanum` is exactly ASCII `[A-Za-z0-9]`). -/
def asciiBaseOk (c : Char) : Bool := c.isAlphanum || c = '_' || c = '-'

/-- No two adjacent underscores (the state after `re.sub(r'_+', '_', ·)`). -/
def noUS2 (a b : Char) : Prop := ¬(a = '_' ∧ b = '_')

/-! ### Artifact locating (`download_soundcloud` lines 252-289,
`search_youtube_and_download` lines 100-123) -/

/-- A file of the shared `downloads` working directory: name and
modification time (`st_mtime`). -/
structure DirFile where
  name : List Char
  mtime : Nat
  deriving Repr, DecidableEq

/-- Matches `downloads_path.glob('*.mp3')`: the name ends in `.mp3`. -/
def isMp3 (f : DirFile) : Bool := ".mp3".toList.isSuffixOf f.name

/-- Python `max(files, key=lambda p: p.stat().st_mtime)`: the first file
of maximal modification time (`max` keeps the earlier element on ties). -/
def maxByMtime : List DirFile → Option DirFile
  | [] => none
  | f :: fs => some (fs.foldl (fun acc g => if g.mtime > acc.mtime then g else acc) f)

/-- Outcome of locating the artifact after the external download call. -/
inductive LocateRes where
  | found (name : List Char)
  | notProduced
  deriving Repr, DecidableEq

/-- Locating policy of `download_soundcloud` (lines 252-289): the expected
sanitized-name path if present; else the most recent `*.mp3`; else the
most recent file of ANY kind (`glob('*')`, lines 280-286); else failure.
`dirExists` models `downloads_path.exists()` (line 270). -/
def locate_download (title : List Char) (dirExists : Bool) (dir : List DirFile) : LocateRes :=
  let expected := clean_filename (title ++ ".mp3".toList)
  if dir.any (fun f => f.name = expected) then .found expected
  else if dirExists then
    match maxByMtime (dir.filter isMp3) with
    | some f => .found f.name
    | none =>
      match maxByMtime dir with
      | some f => .found f.name
      | none => .notProduced
  else .notProduced

/-- Locating policy of `search_youtube_and_download` (lines 100-123):
the expected sanitized-name path if present; else the most recent
`*.mp3`; else failure (no any-file fallback). -/
def locate_search (title : List Char) (dir : List DirFile) : LocateRes :=
  let expected := clean_filename (title ++ ".mp3".toList)
  if dir.any (fun f => f.name = expected) then .found expected
  else
    match maxByMtime (dir.filter isMp3) with
    | some f => .found f.name
    | none => .notProduced

/-! ### Usage ledger (lines 131-182) -/

/-- One entry of `stats['users']` (lines 164-170). -/
structure UserRecord where
  username : String
  first_name : String
  downloads : Nat
  first_seen : String
  last_seen : String
  deriving Repr, DecidableEq

/-- The persisted statistics document.  Python keys users by
`str(user_id)`; `str` is injective on the integer user ids, so the model
keys directly by the id. -/
structure Stats where
  total_downloads : Nat
  total_users : Nat
  users : List (Nat × UserRecord)
  created_at : String
  deriving Repr, DecidableEq

/-- Fresh ledger returned by `load_stats` on missing file or unreadable
content (lines 140-145). -/
def load_stats_default (now : String) : Stats :=
  { total_downloads := 0, total_users := 0, users := [], created_at := now }

/-- Dictionary lookup `stats['users'].get(str(user_id))`: first entry with
the given key. -/
def findUser (uid : Nat) : List (Nat × UserRecord) → Option UserRecord
  | [] => none
  | (k, v) :: t => if k = uid then some v else findUser uid t

/-- Dictionary assignment `stats['users'][str(user_id)] = r`: replace the
first entry with the key, else append. -/
def setUser (uid : Nat) (r : UserRecord) : List (Nat × UserRecord) → List (Nat × UserRecord)
  | [] => [(uid, r)]
  | (k, v) :: t => if k = uid then (uid, r) :: t else (k, v) :: setUser uid r t

/-- In-place mutation of the entry with the given key (no-op if absent). -/
def mapUser (uid : Nat) (f : UserRecord → UserRecord) : List (Nat × UserRecord) → List (Nat × UserRecord)
  | [] => []
  | (k, v) :: t => if k = uid then (k, f v) :: t else (k, v) :: mapUser uid f t

/-- `update_user_stats` (lines 156-182) as a pure state transformation on
the loaded ledger: insert a fresh record (downloads 0) for an unseen id
incrementing `total_users`, else refresh `last_seen`; then increment the
user's `downloads` and the global `total_downloads`.  `now` models
`datetime.now().isoformat()`; Python `username or 'unknown'` reads the
empty string as falsy. -/
def update_user_stats (uid : Nat) (username first_name now : String) (stats : Stats) : Stats :=
  let stats1 :=
    if (findUser uid stats.users).isNone then
      { stats with
        total_users := stats.total_users + 1,
        users := setUser uid
          { username := if username = "" then "unknown" else username,
            first_name := if first_name = "" then "unknown" else first_name,
            downloads := 0, first_seen := now, last_seen := now } stats.users }
    else
      { stats with users := mapUser uid (fun r => { r with last_seen := now }) stats.users }
  { stats1 with
    users := mapUser uid (fun r => { r with downloads := r.downloads + 1 }) stats1.users,
    total_downloads := stats1.total_downloads + 1 }

/-- Downloads counter currently recorded for a user (0 if unseen). -/
def getDownloads (uid : Nat) (s : Stats) : Nat :=
  ((findUser uid s.users).map UserRecord.downloads).getD 0

/-- The ledger invariant of the specification: `total_users` counts the
distinct recorded user ids and `total_downloads` sums the per-user
counters. -/
def statsInv (s : Stats) : Prop :=
  s.total_users = (s.users.map Prod.fst).dedup.length ∧
  s.total_downloads = (s.users.map (fun p => p.2.downloads)).sum

/-! ### The `/stats` command (`stats_command`, lines 345-357) -/

/-- Observable steps of `stats_command`: reading the ledger
(`get_stats_text` calls `load_stats`), the access-denied reply, the
summary reply. -/
inductive StatsEv where
  | ledgerRead
  | replyDenied
  | replySummary
  deriving Repr, DecidableEq

/-- `stats_command` (lines 345-357): `owner_id = os.getenv("OWNER_ID")`
is `none` when the variable is unset; `if owner_id and user_id != owner_id`
uses Python truthiness (the empty string is falsy). -/
def stats_command (owner_id : Option String) (user_id : String) : List StatsEv :=
  match owner_id with
  | none => [.ledgerRead, .replySummary]
  | some o =>
    if o ≠ "" ∧ user_id ≠ o then [.replyDenied]
    else [.ledgerRead, .replySummary]

/-! ### Service classifier (`handle_url` lines 368-394) -/

/-- The ordered `supported_services` table (lines 369-379); Python dicts
iterate in insertion order and the loop takes the first match. -/
def supported_services : List (List Char × String) :=
  [("soundcloud.com".toList, "SoundCloud"),
   ("spotify.com".toList, "Spotify"),
   ("youtu.be".toList, "YouTube"),
   ("youtube.com".toList, "YouTube"),
   ("music.yandex.ru".toList, "Yandex Music"),
   ("yandex.ru/music".toList, "Yandex Music"),
   ("vk.com".toList, "VK Music"),
   ("vkontakte.ru".toList, "VK Music"),
   ("tidal.com".toList, "Tidal")]

/-- `url.lower()` on the modelled fragment. -/
def lowerStr (l : List Char) : List Char := l.map Char.toLower

/-- Python `needle in hay` on strings: substring occurrence. -/
def inStr (needle : List Char) : List Char → Bool
  | [] => needle.isEmpty
  | c :: t => needle.isPrefixOf (c :: t) || inStr needle t

/-- The classification loop (lines 382-387): first `(substring, name)`
pair whose substring occurs in the lowercased URL. -/
def classify (url : List Char) : Option String :=
  (supported_services.find? (fun p => inStr p.1 (lowerStr url))).map (fun p => p.2)

/-! ### Request handling trace model (`handle_url`, lines 359-622) -/

/-- Outcome of one transport send attempt (`reply_audio`). -/
inductive SendRes where
  | ok
  | timeout
  | err
  deriving Repr, DecidableEq

/-- Observable events of one `handle_url` run. `sendAudio n t` is the
`n`-th (1-based) `reply_audio` attempt carrying thumbnail `t`; `sleepSec`
is `asyncio.sleep`; `delFile`/`delThumb` are the `unlink` calls; the
reply texts abbreviate the Russian message strings of the source. -/
inductive Ev where
  | chatAction
  | statusMsg (text : String)
  | statusDel
  | updStats (uid : Nat)
  | dlCall (url : List Char)
  | searchCall (title artist : String)
  | infoCall
  | thumbCall (u : String)
  | sendAudio (attempt : Nat) (thumb : Option String)
  | sleepSec (n : Nat)
  | delFile (path : String)
  | delThumb (path : String)
  | reply (text : String)
  deriving Repr, DecidableEq

/-- `max_retries = 3` (line 546). -/
def max_retries : Nat := 3

/-- Telegram's payload bound used by the size guard (line 525):
`file_size_mb > 50` with `file_size_mb = st_size / (1024*1024)`. -/
def TG_LIMIT_BYTES : Nat := 50 * 1024 * 1024

/-- Environment of one request: results of the external collaborators
(yt-dlp, the filesystem, the transport). `send n` is the transport's
outcome for the `n`-th (0-based) attempt. -/
structure Env where
  info_title : String
  info_artist : String
  info_thumbnail : String
  thumb_ok : Bool
  thumb_path : String
  dl_success : Bool
  dl_result : String
  file_exists : Bool
  file_size : Nat
  send : Nat → SendRes

/-- Modelled from the source: no definition of `download_thumbnail`
exists anywhere in the program (neither soundcloud_bot.py nor
diagnose.py), so the call at line 538 raises `NameError`. -/
def download_thumbnail_defined : Bool := false

/-- The thumbnail-fetch step (lines 534-543): attempted only when the
metadata carries a thumbnail URL; the `NameError` from the undefined
`download_thumbnail` is caught at line 542, leaving `thumbnail = None`. -/
def thumb_step (env : Env) : List Ev × Option String :=
  if env.info_thumbnail ≠ "" then
    if download_thumbnail_defined then
      ([.thumbCall env.info_thumbnail],
       if env.thumb_ok then some env.thumb_path else none)
    else
      ([.thumbCall env.info_thumbnail], none)
  else ([], none)

/-- The retry loop body (lines 546-585) over the list of remaining
attempt indices (`range(max_retries)`): a successful send breaks; a
failure sleeps 5 seconds unless this was the last attempt
(`attempt < max_retries - 1`), in which case the exception is re-raised
(the Bool result is false). -/
def send_attempts (send : Nat → SendRes) (thumb : Option String) : List Nat → List Ev × Bool
  | [] => ([], true)
  | a :: rest =>
    match send a with
    | .ok => ([.sendAudio (a + 1) thumb], true)
    | _ =>
      if rest.isEmpty then ([.sendAudio (a + 1) thumb], false)
      else
        let r := send_attempts send thumb rest
        (.sendAudio (a + 1) thumb :: .sleepSec 5 :: r.1, r.2)

/-- The full retry loop `for attempt in range(max_retries)` (line 547). -/
def send_loop (send : Nat → SendRes) (thumb : Option String) : List Ev × Bool :=
  send_attempts send thumb (List.range max_retries)

/-- The direct-download branch of `handle_url` (lines 502-622):
SoundCloud / YouTube / VK / Tidal.  Events in source order: chat action,
loading message, `download_soundcloud` in a worker thread, existence
check, size guard (early `return`), track metadata, thumbnail step, the
retry loop; the artifact is unlinked after the loop `break`s, the raise
of the final failed attempt is caught at lines 602-607 and reported; the
`finally` (lines 617-622) removes the loading message on every path. -/
def main_branch (env : Env) (url : List Char) : List Ev :=
  [.chatAction, .statusMsg "loading"] ++
  (Ev.dlCall url ::
    (if env.dl_success then
      if env.file_exists then
        if env.file_size > TG_LIMIT_BYTES then
          [.reply "file too large"]
        else
          Ev.infoCall ::
          (let ts := thumb_step env
           ts.1 ++
           (let sl := send_loop env.send ts.2
            sl.1 ++
            (if sl.2 then
              Ev.delFile env.dl_result ::
              (match ts.2 with
               | some t => [.delThumb t]
               | none => [])
            else
              [.reply "send failed"])))
      else [.reply "file not found after download"]
    else [.reply env.dl_result])) ++
  [.statusDel]

/-- The Spotify branch (lines 400-449) and the Yandex branch
(lines 452-500), which duplicate it: resolve metadata, bail out if no
title (the loading message is deleted explicitly AND again by the
`finally`, whose second delete fails and is swallowed), else search
YouTube and, on success and an existing file, send ONCE — a send failure
is caught at lines 435-437 and reported, with no retry and no unlink;
the unlink runs only after a successful send (line 434). -/
def search_branch (env : Env) : List Ev :=
  Ev.statusMsg "searching youtube" ::
  Ev.infoCall ::
  (if env.info_title = "" then
    [.statusDel, .reply "no track info", .statusDel]
  else
    Ev.searchCall env.info_title env.info_artist ::
    ((if env.dl_success then
       if env.file_exists then
         match env.send 0 with
         | .ok => [Ev.sendAudio 1 none, Ev.delFile env.dl_result]
         | _ => [Ev.sendAudio 1 none, Ev.reply "send failed"]
       else []
      else [Ev.reply env.dl_result]) ++
     [.statusDel]))

/-- `handle_url` (lines 359-622): classify the URL (lines 368-394,
unsupported services are reported before any side effect), update the
usage ledger (line 397), then dispatch: Spotify (line 400), Yandex
Music (line 452), else the direct-download branch. -/
def handle_url (env : Env) (uid : Nat) (url : List Char) : List Ev :=
  match classify url with
  | none => [.reply "unsupported service"]
  | some _ =>
    Ev.updStats uid ::
    (if inStr "spotify.com".toList (lowerStr url) then
      search_branch env
    else if inStr "yandex".toList (lowerStr url) && inStr "music".toList (lowerStr url) then
      search_branch env
    else main_branch env url)

/-- Event class: a send attempt. -/
def isSendEv : Ev → Bool
  | .sendAudio _ _ => true
  | _ => false

/-- Event class: a send attempt carrying a (non-`None`) thumbnail. -/
def isSendWithThumbEv : Ev → Bool
  | .sendAudio _ (some _) => true
  | _ => false

/-- Event class: the 5-second backoff sleep. -/
def isSleepEv : Ev → Bool
  | .sleepSec _ => true
  | _ => false

/-- Event class: deletion of the artifact file. -/
def isDelFileEv : Ev → Bool
  | .delFile _ => true
  | _ => false

/-- Event class: deletion of a thumbnail file. -/
def isDelThumbEv : Ev → Bool
  | .delThumb _ => true
  | _ => false

/-- A transport that fails twice then succeeds (attempts 0 and 1 raise,
attempt 2 succeeds). -/
def sendFFO : Nat → SendRes := fun n => if n < 2 then .err else .ok

/-- Environment of a request whose download succeeded, whose artifact
exists and is under the size limit, with no thumbnail URL in the
metadata, over the fails-twice-then-succeeds transport. -/
def envFFO : Env :=
  { info_title := "T", info_artist := "A", info_thumbnail := "",
    thumb_ok := false, thumb_path := "", dl_success := true,
    dl_result := "downloads/t.mp3", file_exists := true,
    file_size := 1000000, send := sendFFO }

/-- Environment of a request whose artifact is oversized (60 MiB). -/
def envBig : Env :=
  { envFFO with file_size := 60 * 1024 * 1024 }

/-- A concrete SoundCloud URL. -/
def urlSC : List Char := "https://soundcloud.com/artist/track".toList

end SCBot

namespace SCBot

/-! ## Sanitizer lemmas -/

theorem lastSplit_eq_none {sep : Char} {l : List Char} (h : sep ∉ l) :
    lastSplit sep l = none := by
  induction l with
  | nil => rfl
  | cons c cs ih =>
    have hc : ¬(c = sep) := fun e => h (e ▸ List.mem_cons_self c cs)
    have hcs : sep ∉ cs := fun m => h (List.mem_cons_of_mem c m)
    simp [lastSplit, ih hcs, hc]

theorem mem_imp_lastSplit_ne_none {sep : Char} {l : List Char} (h : sep ∈ l) :
    lastSplit sep l ≠ none := by
  induction l with
  | nil => cases h
  | cons c cs ih =>
    rw [lastSplit]
    cases hcs : lastSplit sep cs with
    | some p => simp
    | none =>
      rcases List.mem_cons.mp h with h1 | h2
      · simp [h1.symm]
      · exact absurd hcs (ih h2)

theorem lastSplit_spec {sep : Char} : ∀ {l a b : List Char},
    lastSplit sep l = some (a, b) → l = a ++ sep :: b ∧ sep ∉ b := by
  intro l
  induction l with
  | nil => intro a b h; simp [lastSplit] at h
  | cons c cs ih =>
    intro a b h
    rw [lastSplit] at h
    cases hcs : lastSplit sep cs with
    | some p =>
      rw [hcs] at h
      obtain ⟨a', b'⟩ := p
      simp only [Option.some.injEq, Prod.mk.injEq] at h
      obtain ⟨ha, hb⟩ := h
      obtain ⟨e1, e2⟩ := ih hcs
      subst hb
      rw [← ha, e1]
      exact ⟨rfl, e2⟩
    | none =>
      rw [hcs] at h
      by_cases hc : c = sep
      · rw [if_pos hc] at h
        simp only [Option.some.injEq, Prod.mk.injEq] at h
        obtain ⟨ha, hb⟩ := h
        subst hb hc
        rw [← ha]
        exact ⟨rfl, fun mem => mem_imp_lastSplit_ne_none mem hcs⟩
      · rw [if_neg hc] at h
        exact Option.noConfusion h

theorem lastSplit_append {sep : Char} {b : List Char} (a : List Char) (h : sep ∉ b) :
    lastSplit sep (a ++ sep :: b) = some (a, b) := by
  induction a with
  | nil =>
    simp only [List.nil_append, lastSplit, lastSplit_eq_none h]
    simp
  | cons x a' ih =>
    simp only [List.cons_append, lastSplit, List.append_eq, ih]

end SCBot

namespace SCBot

theorem splitextBase_append (base : List Char) :
    (splitextBase base).1 ++ (splitextBase base).2 = base := by
  unfold splitextBase
  split
  · cases h : lastSplit '.' base with
    | some ab =>
      obtain ⟨a, b⟩ := ab
      obtain ⟨e, _⟩ := lastSplit_spec h
      simp [e]
    | none => simp
  · simp

theorem splitext_append (p : List Char) :
    (splitext p).1 ++ (splitext p).2 = p := by
  rw [splitext]
  cases h : lastSplit '/' p with
  | some ds =>
    obtain ⟨d, s⟩ := ds
    obtain ⟨e, _⟩ := lastSplit_spec h
    rw [e]
    simp [List.append_assoc, splitextBase_append]
  | none => simp [splitextBase_append]

theorem splitextBase_ext_shape (s : List Char) (hs : '/' ∉ s) :
    (splitextBase s).2 = [] ∨
    ∃ t, (splitextBase s).2 = '.' :: t ∧ '.' ∉ t ∧ '/' ∉ t := by
  unfold splitextBase
  split
  · cases h : lastSplit '.' s with
    | some ab =>
      obtain ⟨a, b⟩ := ab
      obtain ⟨e, hb⟩ := lastSplit_spec h
      right
      refine ⟨b, by simp, hb, fun m => hs ?_⟩
      rw [e]
      exact List.mem_append_right _ (List.mem_cons_of_mem _ m)
    | none => left; simp
  · left; simp

theorem splitext_ext_shape (p : List Char) :
    (splitext p).2 = [] ∨
    ∃ t, (splitext p).2 = '.' :: t ∧ '.' ∉ t ∧ '/' ∉ t := by
  rw [splitext]
  cases h : lastSplit '/' p with
  | some ds =>
    obtain ⟨d, s⟩ := ds
    obtain ⟨_, hs⟩ := lastSplit_spec h
    exact splitextBase_ext_shape s hs
  | none =>
    exact splitextBase_ext_shape p (fun m => mem_imp_lastSplit_ne_none m h)

theorem not_kept_of_space {c : Char} (h : pyIsSpace c = true) : keptChar c = false := by
  revert h
  simp only [pyIsSpace, Bool.or_eq_true, decide_eq_true_eq]
  rintro (((((h | h) | h) | h) | h) | h) <;> subst h <;> decide

theorem not_space_of_kept {c : Char} (h : keptChar c = true) : pyIsSpace c = false := by
  cases hq : pyIsSpace c with
  | false => rfl
  | true => rw [not_kept_of_space hq] at h; cases h

theorem mem_squashRun {p : Char → Bool} {r : Char} {c : Char} :
    ∀ {b : Bool} {l : List Char}, c ∈ squashRun p r b l → c = r ∨ c ∈ l := by
  intro b l
  induction l generalizing b with
  | nil => intro h; cases h
  | cons x xs ih =>
    intro h
    rw [squashRun] at h
    cases hp : p x with
    | true =>
      rw [hp, if_pos rfl] at h
      rcases List.mem_append.mp h with h1 | h2
      · cases b with
        | true => cases h1
        | false => simp at h1; exact Or.inl h1
      · rcases ih h2 with h3 | h4
        · exact Or.inl h3
        · exact Or.inr (List.mem_cons_of_mem _ h4)
    | false =>
      rw [hp, if_neg Bool.false_ne_true] at h
      rcases List.mem_cons.mp h with h1 | h2
      · exact Or.inr (h1 ▸ List.mem_cons_self _ _)
      · rcases ih h2 with h3 | h4
        · exact Or.inl h3
        · exact Or.inr (List.mem_cons_of_mem _ h4)

theorem mem_stripUS {c : Char} {l : List Char} (h : c ∈ stripUS l) : c ∈ l := by
  unfold stripUS at h
  have h1 := List.mem_reverse.mp h
  have h2 := (List.dropWhile_suffix _).subset h1
  have h3 := List.mem_reverse.mp h2
  exact (List.dropWhile_suffix _).subset h3

theorem mem_cleanBase_kept {c : Char} {n : List Char} (h : c ∈ cleanBase n) :
    keptChar c = true := by
  have h1 := mem_stripUS h
  rcases mem_squashRun h1 with e | h2
  · subst e; decide
  · exact (List.mem_filter.mp h2).2

theorem mem_cleanBase_src {c : Char} {n : List Char} (h : c ∈ cleanBase n) :
    c = '_' ∨ c ∈ n := by
  have h1 := mem_stripUS h
  rcases mem_squashRun h1 with e | h2
  · exact Or.inl e
  · have h3 := (List.mem_filter.mp h2).1
    rcases mem_squashRun h3 with e | h4
    · exact Or.inl e
    · exact Or.inr h4

end SCBot

namespace SCBot

theorem squashRun_eq_self {p : Char → Bool} {r : Char} {l : List Char}
    (h : ∀ c ∈ l, p c = false) : ∀ b, squashRun p r b l = l := by
  induction l with
  | nil => intro b; rfl
  | cons x xs ih =>
    intro b
    have hx : p x = false := h x (List.mem_cons_self _ _)
    rw [squashRun, hx, if_neg Bool.false_ne_true,
      ih (fun c hc => h c (List.mem_cons_of_mem _ hc))]

theorem noUS2_symm {a b : Char} (h : noUS2 a b) : noUS2 b a :=
  fun hp => h ⟨hp.2, hp.1⟩

theorem noUS2_of_left {a b : Char} (h : a ≠ '_') : noUS2 a b :=
  fun hp => h hp.1

theorem squashRun_us_head {l : List Char} :
    ∀ {c : Char}, (squashRun (fun c => c = '_') '_' true l).head? = some c → c ≠ '_' := by
  induction l with
  | nil => intro c h; cases h
  | cons x xs ih =>
    intro c h
    rw [squashRun] at h
    by_cases hx : x = '_'
    · rw [if_pos (by simp [hx])] at h
      exact ih h
    · rw [if_neg (by simp [hx])] at h
      simp only [List.head?_cons, Option.some.injEq] at h
      exact h ▸ hx

theorem squashRun_us_chain (l : List Char) :
    ∀ b, List.Chain' noUS2 (squashRun (fun c => c = '_') '_' b l) := by
  induction l with
  | nil => intro b; exact List.chain'_nil
  | cons x xs ih =>
    intro b
    rw [squashRun]
    by_cases hx : x = '_'
    · rw [if_pos (by simp [hx])]
      cases b with
      | true => exact ih true
      | false =>
        refine List.chain'_cons'.mpr ⟨?_, ih true⟩
        intro y hy
        exact noUS2_symm (noUS2_of_left (squashRun_us_head hy))
    · rw [if_neg (by simp [hx])]
      exact List.chain'_cons'.mpr ⟨fun y _ => noUS2_of_left hx, ih false⟩

theorem chain'_stripUS {l : List Char} (h : List.Chain' noUS2 l) :
    List.Chain' noUS2 (stripUS l) := by
  unfold stripUS
  have h1 : List.Chain' noUS2 (l.dropWhile (fun c => c = '_')) :=
    h.suffix (List.dropWhile_suffix _)
  have h2 : List.Chain' noUS2 ((l.dropWhile (fun c => c = '_')).reverse) :=
    List.chain'_reverse.mpr (h1.imp fun _ _ hab => noUS2_symm hab)
  have h3 := h2.suffix (List.dropWhile_suffix (fun c => c = '_'))
  exact List.chain'_reverse.mpr (h3.imp fun _ _ hab => noUS2_symm hab)

theorem head?_dropWhile_not {q : Char → Bool} {l : List Char} {c : Char}
    (h : (l.dropWhile q).head? = some c) : q c = false := by
  induction l with
  | nil => cases h
  | cons x xs ih =>
    rw [List.dropWhile_cons] at h
    by_cases hq : q x = true
    · rw [if_pos hq] at h; exact ih h
    · rw [if_neg hq] at h
      simp only [List.head?_cons, Option.some.injEq] at h
      have hx : q x = false := by simpa using hq
      exact h ▸ hx

theorem stripUS_head {l : List Char} {c : Char}
    (h : (stripUS l).head? = some c) : c ≠ '_' := by
  unfold stripUS at h
  rw [List.head?_reverse] at h
  set Z := (l.dropWhile (fun c => c = '_')).reverse with hZ
  cases hY : Z.dropWhile (fun c => c = '_') with
  | nil => rw [hY] at h; cases h
  | cons y ys =>
    rw [hY] at h
    obtain ⟨w, hw⟩ := List.dropWhile_suffix (fun c => c = '_') (l := Z)
    rw [hY] at hw
    have hne : (y :: ys : List Char) ≠ [] := by simp
    have hlast : Z.getLast? = (y :: ys).getLast? := by
      rw [← hw]
      exact List.getLast?_append_of_ne_nil w hne
    rw [hlast.symm] at h
    rw [hZ, List.getLast?_reverse] at h
    have := head?_dropWhile_not h
    simpa using this

theorem stripUS_last {l : List Char} {c : Char}
    (h : (stripUS l).getLast? = some c) : c ≠ '_' := by
  unfold stripUS at h
  rw [List.getLast?_reverse] at h
  have := head?_dropWhile_not h
  simpa using this

end SCBot

namespace SCBot

theorem squashRun_us_eq_self : ∀ {l : List Char}, List.Chain' noUS2 l →
    (squashRun (fun c => c = '_') '_' false l = l ∧
     ((∀ c, l.head? = some c → c ≠ '_') →
       squashRun (fun c => c = '_') '_' true l = l)) := by
  intro l
  induction l with
  | nil => intro _; exact ⟨rfl, fun _ => rfl⟩
  | cons x xs ih =>
    intro h
    have htail : List.Chain' noUS2 xs := h.tail
    have hrel : ∀ y ∈ xs.head?, noUS2 x y := (List.chain'_cons'.mp h).1
    obtain ⟨ihf, iht⟩ := ih htail
    constructor
    · rw [squashRun]
      by_cases hx : x = '_'
      · rw [if_pos (by simp [hx])]
        have hxs : squashRun (fun c => c = '_') '_' true xs = xs := by
          refine iht fun c hc hc' => ?_
          have := hrel c (by rw [hc]; rfl)
          exact this ⟨hx, hc'⟩
        rw [hxs, hx]
        rfl
      · rw [if_neg (by simp [hx]), ihf]
    · intro hh
      have hx : x ≠ '_' := hh x rfl
      rw [squashRun, if_neg (by simp [hx]), ihf]

theorem dropWhile_eq_self_of_head {q : Char → Bool} {l : List Char}
    (h : ∀ c, l.head? = some c → q c = false) : l.dropWhile q = l := by
  cases l with
  | nil => rfl
  | cons x xs =>
    rw [List.dropWhile_cons, if_neg]
    rw [h x rfl]
    exact Bool.false_ne_true

theorem stripUS_eq_self {l : List Char}
    (hh : ∀ c, l.head? = some c → c ≠ '_')
    (hl : ∀ c, l.getLast? = some c → c ≠ '_') : stripUS l = l := by
  have h1 : l.dropWhile (fun c => c = '_') = l :=
    dropWhile_eq_self_of_head (fun c hc => by simp [hh c hc])
  unfold stripUS
  rw [h1]
  have h2 : l.reverse.dropWhile (fun c => c = '_') = l.reverse :=
    dropWhile_eq_self_of_head (fun c hc => by
      rw [List.head?_reverse] at hc
      simp [hl c hc])
  rw [h2, List.reverse_reverse]

theorem cleanBase_chain (n : List Char) : List.Chain' noUS2 (cleanBase n) :=
  chain'_stripUS (squashRun_us_chain _ false)

theorem cleanBase_eq_self {b : List Char}
    (hg : ∀ c ∈ b, keptChar c = true)
    (hch : List.Chain' noUS2 b)
    (hh : ∀ c, b.head? = some c → c ≠ '_')
    (hl : ∀ c, b.getLast? = some c → c ≠ '_') : cleanBase b = b := by
  unfold cleanBase
  rw [squashRun_eq_self (fun c hc => not_space_of_kept (hg c hc)) false]
  rw [List.filter_eq_self.mpr (fun c hc => hg c hc)]
  rw [(squashRun_us_eq_self hch).1]
  exact stripUS_eq_self hh hl

theorem cleanBase_idem (n : List Char) : cleanBase (cleanBase n) = cleanBase n :=
  cleanBase_eq_self (fun _ hc => mem_cleanBase_kept hc) (cleanBase_chain n)
    (fun _ => stripUS_head) (fun _ => stripUS_last)

theorem splitext_no_slash {p : List Char} (h : '/' ∉ p) :
    splitext p = splitextBase p := by
  rw [splitext, lastSplit_eq_none h]

theorem splitext_of_kept {b : List Char} (hg : ∀ c ∈ b, keptChar c = true) :
    splitext b = (b, []) := by
  have hslash : '/' ∉ b := fun m => absurd (hg '/' m) (by decide)
  have hdot : '.' ∉ b := fun m => absurd (hg '.' m) (by decide)
  rw [splitext_no_slash hslash]
  unfold splitextBase
  rw [dropWhile_eq_self_of_head (fun c hc => by
    have : c ∈ b := by
      cases b with
      | nil => cases hc
      | cons y ys =>
        simp only [List.head?_cons, Option.some.injEq] at hc
        exact hc ▸ List.mem_cons_self _ _
    simp [show ¬(c = '.') from fun e => hdot (e ▸ this)])]
  rw [if_neg (by simp [hdot])]

theorem splitext_clean_ext {b s : List Char} (hg : ∀ c ∈ b, keptChar c = true)
    (hb : b ≠ []) (hds : '.' ∉ s) (hss : '/' ∉ s) :
    splitext (b ++ '.' :: s) = (b, '.' :: s) := by
  have hslash : '/' ∉ b ++ '.' :: s := by
    intro m
    rcases List.mem_append.mp m with m1 | m2
    · exact absurd (hg '/' m1) (by decide)
    · rcases List.mem_cons.mp m2 with e | m3
      · exact absurd e (by decide)
      · exact hss m3
  have hdotb : '.' ∉ b := fun m => absurd (hg '.' m) (by decide)
  rw [splitext_no_slash hslash]
  unfold splitextBase
  obtain ⟨x, b', rfl⟩ : ∃ x b', b = x :: b' := by
    cases b with
    | nil => exact absurd rfl hb
    | cons x b' => exact ⟨x, b', rfl⟩
  have hx : ¬(x = '.') := fun e => hdotb (e ▸ List.mem_cons_self _ _)
  have hL := lastSplit_append (x :: b') hds
  rw [List.cons_append] at hL
  have hD : (x :: (b' ++ '.' :: s)).dropWhile (fun c => c = '.') = x :: (b' ++ '.' :: s) := by
    rw [List.dropWhile_cons, if_neg (by simp [hx])]
  rw [List.cons_append, hD, if_pos (by simp), hL]

end SCBot

namespace SCBot

theorem clean_filename_eq (m : List Char) :
    clean_filename m = cleanBase (splitext m).1 ++ (splitext m).2 := rfl

/-- C4, counterexample: `clean_filename` is NOT idempotent on every input.
On `"!.mp3"` the base name sanitizes to the empty string, the first pass
returns `".mp3"`, and the second pass parses `".mp3"` as an extension-less
dotfile name and strips the dot, yielding `"mp3"`. -/
theorem C4_counterexample :
    ¬(clean_filename (clean_filename "!.mp3".toList) =
        clean_filename "!.mp3".toList) := by decide

/-- C4, amended: `clean_filename` is idempotent on every input whose
sanitized base name is nonempty or whose extension is empty; only when
the base sanitizes to the empty string while a nonempty extension
remains does a second application differ (it strips the extension's
leading dot). -/
theorem C4_clean_filename_idempotent (l : List Char)
    (h : cleanBase (splitext l).1 ≠ [] ∨ (splitext l).2 = []) :
    clean_filename (clean_filename l) = clean_filename l := by
  have hbase : ∀ c ∈ cleanBase (splitext l).1, keptChar c = true :=
    fun _ hc => mem_cleanBase_kept hc
  rcases splitext_ext_shape l with he | ⟨t, he, hdt, hst⟩
  · have e1 : clean_filename l = cleanBase (splitext l).1 := by
      rw [clean_filename_eq, he, List.append_nil]
    rw [e1, clean_filename_eq, splitext_of_kept hbase]
    simp [cleanBase_idem]
  · have hb : cleanBase (splitext l).1 ≠ [] := by
      rcases h with h | h
      · exact h
      · rw [he] at h; cases h
    have e1 : clean_filename l = cleanBase (splitext l).1 ++ '.' :: t := by
      rw [clean_filename_eq, he]
    rw [e1, clean_filename_eq, splitext_clean_ext hbase hb hdt hst]
    simp [cleanBase_idem]

/-- C4, witness: the idempotence theorem applied at a concrete input. -/
theorem C4_witness :
    clean_filename (clean_filename "My  Song!!.mp3".toList) =
      clean_filename "My  Song!!.mp3".toList :=
  C4_clean_filename_idempotent _ (Or.inl (by decide))

theorem asciiBaseOk_of_kept {c : Char} (hc : c.toNat < 128)
    (hk : keptChar c = true) : asciiBaseOk c = true := by
  rw [keptChar, pyIsWord] at hk
  rw [asciiBaseOk]
  simp only [Bool.or_eq_true, Bool.and_eq_true, decide_eq_true_eq] at hk ⊢
  rcases hk with ((((h | h) | h) | h) | h)
  · exact Or.inl (Or.inl h)
  · exact Or.inl (Or.inr h)
  · omega
  · omega
  · exact Or.inr h

/-- C5, counterexample: the output's base name is NOT always confined to
`[A-Za-z0-9_-]`: Python's `\w` keeps Unicode word characters, so
`"é.mp3"` sanitizes to itself and its base name `"é"` lies outside the
claimed character set. -/
theorem C5_counterexample :
    clean_filename "é.mp3".toList = "é.mp3".toList ∧
    ((splitext (clean_filename "é.mp3".toList)).1.all asciiBaseOk) = false :=
  ⟨by decide, by decide⟩

/-- C5, amended: for every ASCII input the sanitized base name contains
only characters from `[A-Za-z0-9_-]`; for every input the original
extension is reattached unchanged (it is a suffix of the output); and
`"My  Song!!.mp3"` maps to `"My_Song.mp3"`. -/
theorem C5_clean_filename_charset (l : List Char) :
    ((∀ c ∈ l, c.toNat < 128) →
      ∀ c ∈ cleanBase (splitext l).1, asciiBaseOk c = true) ∧
    (splitext l).2 <:+ clean_filename l ∧
    clean_filename "My  Song!!.mp3".toList = "My_Song.mp3".toList := by
  refine ⟨?_, ?_, by decide⟩
  · intro hascii c hc
    rcases mem_cleanBase_src hc with e | hmem
    · subst e; decide
    · have hk := mem_cleanBase_kept hc
      have hmem' : c ∈ l := by
        rw [← splitext_append l]
        exact List.mem_append_left _ hmem
      exact asciiBaseOk_of_kept (hascii c hmem') hk
  · rw [clean_filename_eq]
    exact List.suffix_append _ _

/-- C5, witness: the charset theorem applied at a concrete ASCII input. -/
theorem C5_witness :
    ∀ c ∈ cleanBase (splitext "My  Song!!.mp3".toList).1, asciiBaseOk c = true :=
  (C5_clean_filename_charset _).1 (by decide)

end SCBot

namespace SCBot

/-! ## Ledger lemmas -/

theorem findUser_setUser_self (uid : Nat) (r : UserRecord) :
    ∀ l, findUser uid (setUser uid r l) = some r := by
  intro l
  induction l with
  | nil => simp [setUser, findUser]
  | cons kv t ih =>
    obtain ⟨k, v⟩ := kv
    by_cases hk : k = uid
    · simp [setUser, hk, findUser]
    · simp [setUser, hk, findUser, ih]

theorem findUser_mapUser_self (uid : Nat) (f : UserRecord → UserRecord) :
    ∀ l, findUser uid (mapUser uid f l) = (findUser uid l).map f := by
  intro l
  induction l with
  | nil => simp [mapUser, findUser]
  | cons kv t ih =>
    obtain ⟨k, v⟩ := kv
    by_cases hk : k = uid
    · simp [mapUser, hk, findUser]
    · simp [mapUser, hk, findUser, ih]

theorem setUser_of_none {uid : Nat} {r : UserRecord} :
    ∀ {l}, findUser uid l = none → setUser uid r l = l ++ [(uid, r)] := by
  intro l
  induction l with
  | nil => intro _; rfl
  | cons kv t ih =>
    obtain ⟨k, v⟩ := kv
    intro h
    rw [findUser] at h
    by_cases hk : k = uid
    · rw [if_pos hk] at h; cases h
    · rw [if_neg hk] at h
      simp [setUser, hk, ih h]

theorem findUser_append_right {uid : Nat} {r : UserRecord} :
    ∀ {l}, findUser uid l = none → findUser uid (l ++ [(uid, r)]) = some r := by
  intro l
  induction l with
  | nil => intro _; simp [findUser]
  | cons kv t ih =>
    obtain ⟨k, v⟩ := kv
    intro h
    rw [findUser] at h
    by_cases hk : k = uid
    · rw [if_pos hk] at h; cases h
    · rw [if_neg hk] at h
      simp [findUser, hk, ih h]

theorem mapUser_map_fst (uid : Nat) (f : UserRecord → UserRecord) :
    ∀ l, (mapUser uid f l).map Prod.fst = l.map Prod.fst := by
  intro l
  induction l with
  | nil => rfl
  | cons kv t ih =>
    obtain ⟨k, v⟩ := kv
    by_cases hk : k = uid
    · simp [mapUser, hk]
    · simp [mapUser, hk, ih]

theorem findUser_none_iff {uid : Nat} :
    ∀ {l}, findUser uid l = none ↔ uid ∉ l.map Prod.fst := by
  intro l
  induction l with
  | nil => simp [findUser]
  | cons kv t ih =>
    obtain ⟨k, v⟩ := kv
    rw [findUser]
    by_cases hk : k = uid
    · rw [if_pos hk]
      simp [hk]
    · rw [if_neg hk]
      simp only [List.map_cons, List.mem_cons]
      rw [ih]
      constructor
      · rintro h (e | m)
        · exact hk e.symm
        · exact h m
      · intro h m
        exact h (Or.inr m)

theorem dedup_append_singleton {x : Nat} :
    ∀ {xs : List Nat}, x ∉ xs → (xs ++ [x]).dedup.length = xs.dedup.length + 1 := by
  intro xs
  induction xs with
  | nil => intro _; rfl
  | cons k ks ih =>
    intro h
    have hkx : ¬(k = x) := fun e => h (e ▸ List.mem_cons_self _ _)
    have hx : x ∉ ks := fun m => h (List.mem_cons_of_mem _ m)
    rw [List.cons_append]
    by_cases hk : k ∈ ks
    · rw [List.dedup_cons_of_mem (List.mem_append_left _ hk),
        List.dedup_cons_of_mem hk]
      exact ih hx
    · have hk2 : k ∉ ks ++ [x] := by
        intro m
        rcases List.mem_append.mp m with m1 | m2
        · exact hk m1
        · simp at m2; exact hkx m2
      rw [List.dedup_cons_of_not_mem hk2, List.dedup_cons_of_not_mem hk]
      simp only [List.length_cons]
      rw [ih hx]

theorem sum_mapUser_inc {uid : Nat} :
    ∀ {l r}, findUser uid l = some r →
      ((mapUser uid (fun v => { v with downloads := v.downloads + 1 }) l).map
        (fun p => p.2.downloads)).sum = (l.map (fun p => p.2.downloads)).sum + 1 := by
  intro l
  induction l with
  | nil => intro r h; cases h
  | cons kv t ih =>
    obtain ⟨k, v⟩ := kv
    intro r h
    rw [findUser] at h
    by_cases hk : k = uid
    · rw [if_pos hk] at h
      simp only [mapUser, if_pos hk, List.map_cons, List.sum_cons]
      omega
    · rw [if_neg hk] at h
      simp only [mapUser, if_neg hk, List.map_cons, List.sum_cons, ih h]
      omega

theorem sum_mapUser_const {uid : Nat} (f : UserRecord → UserRecord)
    (hf : ∀ v, (f v).downloads = v.downloads) :
    ∀ l, ((mapUser uid f l).map (fun p => p.2.downloads)).sum =
      (l.map (fun p => p.2.downloads)).sum := by
  intro l
  induction l with
  | nil => rfl
  | cons kv t ih =>
    obtain ⟨k, v⟩ := kv
    by_cases hk : k = uid
    · simp only [mapUser, if_pos hk, List.map_cons, List.sum_cons, hf, ih]
    · simp only [mapUser, if_neg hk, List.map_cons, List.sum_cons, ih]

end SCBot

namespace SCBot

/-- C6: recording a download for an unseen user id inserts a record and
increments `total_users` by exactly 1 and `total_downloads` by 1 (the new
record's counter is 1); recording for an already-recorded id leaves
`total_users` unchanged and increments that user's `downloads` and the
global `total_downloads` by 1. -/
theorem C6_record_download (s : Stats) (uid : Nat) (un fn now : String) :
    (findUser uid s.users = none →
      (update_user_stats uid un fn now s).total_users = s.total_users + 1 ∧
      (update_user_stats uid un fn now s).total_downloads = s.total_downloads + 1 ∧
      getDownloads uid (update_user_stats uid un fn now s) = 1) ∧
    (∀ r, findUser uid s.users = some r →
      (update_user_stats uid un fn now s).total_users = s.total_users ∧
      (update_user_stats uid un fn now s).total_downloads = s.total_downloads + 1 ∧
      getDownloads uid (update_user_stats uid un fn now s) = r.downloads + 1) := by
  constructor
  · intro h
    refine ⟨?_, ?_, ?_⟩ <;>
      simp [update_user_stats, h, getDownloads, findUser_mapUser_self,
        findUser_setUser_self]
  · intro r h
    refine ⟨?_, ?_, ?_⟩ <;>
      simp [update_user_stats, h, getDownloads, findUser_mapUser_self]

/-- C6, witness: concrete run on the fresh ledger: the first recording
creates the user (counters 1), the second leaves `total_users` at 1 and
bumps the downloads counters. -/
theorem C6_witness :
    ((update_user_stats 7 "u" "f" "t" (load_stats_default "t")).total_users = 0 + 1 ∧
      (update_user_stats 7 "u" "f" "t" (load_stats_default "t")).total_downloads = 0 + 1 ∧
      getDownloads 7 (update_user_stats 7 "u" "f" "t" (load_stats_default "t")) = 1) ∧
    ((update_user_stats 7 "u" "f" "t2" (update_user_stats 7 "u" "f" "t" (load_stats_default "t"))).total_users =
        (update_user_stats 7 "u" "f" "t" (load_stats_default "t")).total_users ∧
      (update_user_stats 7 "u" "f" "t2" (update_user_stats 7 "u" "f" "t" (load_stats_default "t"))).total_downloads =
        (update_user_stats 7 "u" "f" "t" (load_stats_default "t")).total_downloads + 1 ∧
      getDownloads 7 (update_user_stats 7 "u" "f" "t2" (update_user_stats 7 "u" "f" "t" (load_stats_default "t"))) = 1 + 1) := by
  constructor
  · exact (C6_record_download (load_stats_default "t") 7 "u" "f" "t").1 (by decide)
  · exact (C6_record_download (update_user_stats 7 "u" "f" "t" (load_stats_default "t")) 7 "u" "f" "t2").2
      { username := "u", first_name := "f", downloads := 1, first_seen := "t", last_seen := "t" }
      (by decide)

/-- C7: the ledger invariant (`total_users` counts distinct recorded ids,
`total_downloads` sums the per-user counters) holds for the fresh ledger
returned by `load_stats` on missing or malformed state, and is preserved
by `update_user_stats`. -/
theorem C7_ledger_invariant :
    (∀ now, statsInv (load_stats_default now)) ∧
    (∀ s uid un fn now, statsInv s → statsInv (update_user_stats uid un fn now s)) := by
  constructor
  · intro _; exact ⟨rfl, rfl⟩
  · rintro s uid un fn now ⟨h1, h2⟩
    cases hf : findUser uid s.users with
    | none =>
      have hnotin : uid ∉ s.users.map Prod.fst := findUser_none_iff.mp hf
      constructor
      · show (update_user_stats uid un fn now s).total_users = _
        simp only [update_user_stats, hf, Option.isNone_none, if_true,
          mapUser_map_fst, setUser_of_none hf, List.map_append, List.map_cons,
          List.map_nil]
        rw [dedup_append_singleton hnotin, h1]
      · show (update_user_stats uid un fn now s).total_downloads = _
        simp only [update_user_stats, hf, Option.isNone_none, if_true]
        rw [sum_mapUser_inc (findUser_setUser_self uid _ _),
          setUser_of_none hf, List.map_append, List.sum_append]
        simp [h2]
    | some r =>
      constructor
      · show (update_user_stats uid un fn now s).total_users = _
        simp only [update_user_stats, hf, Option.isNone_some, Bool.false_eq_true,
          if_false, mapUser_map_fst]
        exact h1
      · show (update_user_stats uid un fn now s).total_downloads = _
        simp only [update_user_stats, hf, Option.isNone_some, Bool.false_eq_true,
          if_false]
        rw [sum_mapUser_inc (by rw [findUser_mapUser_self, hf]; rfl),
          sum_mapUser_const (fun r => { r with last_seen := now }) (fun v => rfl) s.users,
          h2]

/-- C7, witness: the invariant theorem applied at concrete inputs. -/
theorem C7_witness :
    statsInv (update_user_stats 3 "a" "b" "t2" (load_stats_default "t")) :=
  C7_ledger_invariant.2 (load_stats_default "t") 3 "a" "b" "t2"
    (C7_ledger_invariant.1 "t")

end SCBot

namespace SCBot

/-- C10: with `OWNER_ID` unset every caller receives the usage summary
(preceded by a ledger read); the access-denied reply occurs only when
`OWNER_ID` is set to a nonempty string that differs from the caller's
id, and the denial path performs no ledger read. -/
theorem C10_stats_owner_gate :
    (∀ user, stats_command none user = [.ledgerRead, .replySummary]) ∧
    (∀ oid user, StatsEv.replyDenied ∈ stats_command oid user →
      StatsEv.ledgerRead ∉ stats_command oid user ∧
      ∃ o, oid = some o ∧ o ≠ "" ∧ user ≠ o) := by
  constructor
  · intro _; rfl
  · intro oid user h
    cases oid with
    | none => simp [stats_command] at h
    | some o =>
      rw [stats_command] at h ⊢
      by_cases hc : o ≠ "" ∧ user ≠ o
      · rw [if_pos hc] at h ⊢
        exact ⟨by simp, o, rfl, hc.1, hc.2⟩
      · rw [if_neg hc] at h
        simp at h

/-- C10, witness: a non-owner caller with `OWNER_ID` set is denied with
no ledger read. -/
theorem C10_witness :
    StatsEv.ledgerRead ∉ stats_command (some "42") "7" ∧
    ∃ o, (some "42" : Option String) = some o ∧ o ≠ "" ∧ "7" ≠ o :=
  C10_stats_owner_gate.2 (some "42") "7" (by decide)

/-! ## Locating lemmas -/

theorem foldl_max_mem : ∀ (fs : List DirFile) (a : DirFile),
    fs.foldl (fun acc g => if g.mtime > acc.mtime then g else acc) a ∈ a :: fs := by
  intro fs
  induction fs with
  | nil => intro a; exact List.mem_cons_self _ _
  | cons x xs ih =>
    intro a
    rw [List.foldl_cons]
    by_cases h : x.mtime > a.mtime
    · rw [if_pos h]
      exact List.mem_cons_of_mem _ (ih x)
    · rw [if_neg h]
      rcases List.mem_cons.mp (ih a) with e | m
      · rw [e]; exact List.mem_cons_self _ _
      · exact List.mem_cons_of_mem _ (List.mem_cons_of_mem _ m)

theorem foldl_max_le : ∀ (fs : List DirFile) (a : DirFile), ∀ g ∈ a :: fs,
    g.mtime ≤ (fs.foldl (fun acc g => if g.mtime > acc.mtime then g else acc) a).mtime := by
  intro fs
  induction fs with
  | nil =>
    intro a g hg
    rcases List.mem_cons.mp hg with e | m
    · exact e ▸ Nat.le_refl _
    · cases m
  | cons x xs ih =>
    intro a g hg
    rw [List.foldl_cons]
    by_cases h : x.mtime > a.mtime
    · rw [if_pos h]
      rcases List.mem_cons.mp hg with e | m
      · exact e ▸ Nat.le_trans (Nat.le_of_lt h) (ih x x (List.mem_cons_self _ _))
      · exact ih x g m
    · rw [if_neg h]
      rcases List.mem_cons.mp hg with e | m
      · exact e ▸ ih a a (List.mem_cons_self _ _)
      · rcases List.mem_cons.mp m with e2 | m2
        · exact e2 ▸ Nat.le_trans (Nat.le_of_not_lt h) (ih a a (List.mem_cons_self _ _))
        · exact ih a g (List.mem_cons_of_mem _ m2)

theorem maxByMtime_spec {l : List DirFile} {f : DirFile} (h : maxByMtime l = some f) :
    f ∈ l ∧ ∀ g ∈ l, g.mtime ≤ f.mtime := by
  cases l with
  | nil => cases h
  | cons a fs =>
    rw [maxByMtime] at h
    simp only [Option.some.injEq] at h
    subst h
    exact ⟨foldl_max_mem fs a, foldl_max_le fs a⟩

theorem maxByMtime_eq_none_iff {l : List DirFile} : maxByMtime l = none ↔ l = [] := by
  cases l with
  | nil => simp [maxByMtime]
  | cons a fs => simp [maxByMtime]

end SCBot

namespace SCBot

/-- C3, counterexample: the direct-download locator does NOT fail when no
`.mp3` is present — `download_soundcloud` falls back to the
most-recently-modified file of ANY kind (lines 280-286), here returning
a `.jpg`. -/
theorem C3_counterexample :
    locate_download "track".toList true [⟨"cover.jpg".toList, 5⟩] =
      .found "cover.jpg".toList ∧
    isMp3 ⟨"cover.jpg".toList, 5⟩ = false :=
  ⟨by decide, by decide⟩

/-- C3, amended: both locators use the expected sanitized-name path when
it exists, else the most-recently-modified `.mp3`; when no `.mp3` exists
the search locator fails with artifact-not-produced, but the
direct-download locator additionally falls back to the
most-recently-modified file of ANY kind and fails only when the working
directory is missing or empty. -/
theorem C3_locating_policy (title : List Char) (dirE : Bool) (dir : List DirFile) :
    (dir.any (fun f => f.name = clean_filename (title ++ ".mp3".toList)) = true →
      locate_download title dirE dir = .found (clean_filename (title ++ ".mp3".toList)) ∧
      locate_search title dir = .found (clean_filename (title ++ ".mp3".toList))) ∧
    (dir.any (fun f => f.name = clean_filename (title ++ ".mp3".toList)) = false →
      ∀ f, maxByMtime (dir.filter isMp3) = some f →
      locate_search title dir = .found f.name ∧
      (dirE = true → locate_download title dirE dir = .found f.name) ∧
      f ∈ dir.filter isMp3 ∧ ∀ g ∈ dir.filter isMp3, g.mtime ≤ f.mtime) ∧
    (locate_search title dir = .notProduced ↔
      dir.any (fun f => f.name = clean_filename (title ++ ".mp3".toList)) = false ∧
      dir.filter isMp3 = []) ∧
    (dir.any (fun f => f.name = clean_filename (title ++ ".mp3".toList)) = false →
      dir.filter isMp3 = [] → dirE = true → ∀ f, maxByMtime dir = some f →
      locate_download title dirE dir = .found f.name ∧
      f ∈ dir ∧ ∀ g ∈ dir, g.mtime ≤ f.mtime) ∧
    (locate_download title dirE dir = .notProduced ↔
      dir.any (fun f => f.name = clean_filename (title ++ ".mp3".toList)) = false ∧
      (dirE = false ∨ dir = [])) := by
  have hNE : ∀ (b : Bool), b = false → ¬(b = true) := by
    intro b hb e
    rw [hb] at e
    cases e
  refine ⟨?_, ?_, ?_, ?_, ?_⟩
  · intro h
    constructor
    · simp only [locate_download]
      rw [if_pos h]
    · simp only [locate_search]
      rw [if_pos h]
  · intro h f hm
    obtain ⟨hmem, hle⟩ := maxByMtime_spec hm
    refine ⟨?_, ?_, hmem, hle⟩
    · simp only [locate_search]
      rw [if_neg (hNE _ h), hm]
    · intro hd
      simp only [locate_download]
      rw [if_neg (hNE _ h), if_pos hd, hm]
  · constructor
    · intro h
      cases hany : dir.any (fun f => f.name = clean_filename (title ++ ".mp3".toList)) with
      | true =>
        simp only [locate_search] at h
        rw [if_pos hany] at h
        cases h
      | false =>
        simp only [locate_search] at h
        rw [if_neg (hNE _ hany)] at h
        cases hm : maxByMtime (dir.filter isMp3) with
        | some f => rw [hm] at h; cases h
        | none => exact ⟨rfl, maxByMtime_eq_none_iff.mp hm⟩
    · rintro ⟨h1, h2⟩
      have hm : maxByMtime (dir.filter isMp3) = none := maxByMtime_eq_none_iff.mpr h2
      simp only [locate_search]
      rw [if_neg (hNE _ h1), hm]
  · intro h1 h2 hd f hm
    obtain ⟨hmem, hle⟩ := maxByMtime_spec hm
    have hmn : maxByMtime (dir.filter isMp3) = none := maxByMtime_eq_none_iff.mpr h2
    refine ⟨?_, hmem, hle⟩
    simp only [locate_download]
    rw [if_neg (hNE _ h1), if_pos hd, hmn, hm]
  · constructor
    · intro h
      cases hany : dir.any (fun f => f.name = clean_filename (title ++ ".mp3".toList)) with
      | true =>
        simp only [locate_download] at h
        rw [if_pos hany] at h
        cases h
      | false =>
        simp only [locate_download] at h
        rw [if_neg (hNE _ hany)] at h
        cases hd : dirE with
        | false => exact ⟨rfl, Or.inl rfl⟩
        | true =>
          rw [if_pos hd] at h
          cases hm : maxByMtime (dir.filter isMp3) with
          | some f => rw [hm] at h; cases h
          | none =>
            rw [hm] at h
            cases hm2 : maxByMtime dir with
            | some f => rw [hm2] at h; cases h
            | none => exact ⟨rfl, Or.inr (maxByMtime_eq_none_iff.mp hm2)⟩
    · rintro ⟨h1, h2 | h2⟩
      · simp only [locate_download]
        rw [if_neg (hNE _ h1), if_neg (hNE _ h2)]
      · subst h2
        simp only [locate_download]
        rw [if_neg (hNE _ h1)]
        cases dirE <;> simp [maxByMtime]

/-- C3, witness: the amended policy applied concretely — with no
expected-name match, the search locator returns the most recent
`.mp3`. -/
theorem C3_witness :
    locate_search "t".toList [⟨"a.mp3".toList, 1⟩, ⟨"b.mp3".toList, 9⟩] =
      .found "b.mp3".toList :=
  ((C3_locating_policy "t".toList true
      [⟨"a.mp3".toList, 1⟩, ⟨"b.mp3".toList, 9⟩]).2.1
    (by decide) ⟨"b.mp3".toList, 9⟩ (by decide)).1

end SCBot

namespace SCBot

/-! ## Delivery-trace lemmas -/

theorem thumb_step_none (env : Env) : (thumb_step env).2 = none := by
  by_cases h : env.info_thumbnail ≠ "" <;>
    simp [thumb_step, h, download_thumbnail_defined]

theorem thumb_step_counts (env : Env) :
    (thumb_step env).1.countP isDelFileEv = 0 ∧
    (thumb_step env).1.countP isDelThumbEv = 0 ∧
    (thumb_step env).1.countP isSendWithThumbEv = 0 ∧
    (thumb_step env).1.countP isSendEv = 0 := by
  by_cases h : env.info_thumbnail ≠ "" <;>
    simp [thumb_step, h, download_thumbnail_defined, List.countP_cons,
      isDelFileEv, isDelThumbEv, isSendWithThumbEv, isSendEv]

theorem send_attempts_count (send : Nat → SendRes) (thumb : Option String) :
    ∀ l, ((send_attempts send thumb l).1.countP isSendEv) ≤ l.length := by
  intro l
  induction l with
  | nil => simp [send_attempts]
  | cons a rest ih =>
    rw [send_attempts]
    cases send a with
    | ok => simp [List.countP_cons, isSendEv]
    | timeout =>
      by_cases he : rest.isEmpty
      · simp [he, List.countP_cons, isSendEv]
      · simp only [he, if_false, List.countP_cons, isSendEv, isSleepEv]
        simp [isSendEv]
        omega
    | err =>
      by_cases he : rest.isEmpty
      · simp [he, List.countP_cons, isSendEv]
      · simp only [he, if_false, List.countP_cons, isSendEv, isSleepEv]
        simp [isSendEv]
        omega

theorem send_attempts_counts_zero (send : Nat → SendRes) (thumb : Option String) :
    ∀ l, ((send_attempts send thumb l).1.countP isDelFileEv = 0 ∧
          (send_attempts send thumb l).1.countP isDelThumbEv = 0) := by
  intro l
  induction l with
  | nil => simp [send_attempts]
  | cons a rest ih =>
    rw [send_attempts]
    cases send a with
    | ok => simp [List.countP_cons, isDelFileEv, isDelThumbEv]
    | timeout =>
      by_cases he : rest.isEmpty
      · simp [he, List.countP_cons, isDelFileEv, isDelThumbEv]
      · simp [he, List.countP_cons, isDelFileEv, isDelThumbEv, ih]
    | err =>
      by_cases he : rest.isEmpty
      · simp [he, List.countP_cons, isDelFileEv, isDelThumbEv]
      · simp [he, List.countP_cons, isDelFileEv, isDelThumbEv, ih]

theorem send_attempts_none_thumb (send : Nat → SendRes) :
    ∀ l, ((send_attempts send none l).1.countP isSendWithThumbEv) = 0 := by
  intro l
  induction l with
  | nil => simp [send_attempts]
  | cons a rest ih =>
    rw [send_attempts]
    cases send a with
    | ok => simp [List.countP_cons, isSendWithThumbEv]
    | timeout =>
      by_cases he : rest.isEmpty
      · simp [he, List.countP_cons, isSendWithThumbEv]
      · simp [he, List.countP_cons, isSendWithThumbEv, ih]
    | err =>
      by_cases he : rest.isEmpty
      · simp [he, List.countP_cons, isSendWithThumbEv]
      · simp [he, List.countP_cons, isSendWithThumbEv, ih]

end SCBot

namespace SCBot

/-- C1, counterexample: on a size-guard rejection the artifact is NOT
deleted — `handle_url` replies and returns (line 528) without any
`unlink`, leaving the oversized file on disk. -/
theorem C1_counterexample :
    main_branch envBig urlSC =
      [.chatAction, .statusMsg "loading", .dlCall urlSC,
       .reply "file too large", .statusDel] ∧
    (main_branch envBig urlSC).countP isDelFileEv = 0 ∧
    (main_branch envBig urlSC).countP isDelThumbEv = 0 :=
  ⟨by decide, by decide, by decide⟩

/-- C1, amended: the artifact file is deleted exactly once, and only
when the download succeeded, the file exists, the size guard passes and
some send attempt succeeds within the retry budget; on size-guard
rejection or exhausted retries (and on every other failure) no deletion
happens. -/
theorem C1_cleanup_only_on_success (env : Env) (url : List Char) :
    (main_branch env url).countP isDelFileEv =
      cond (env.dl_success && env.file_exists &&
        decide (env.file_size ≤ TG_LIMIT_BYTES) &&
        (send_loop env.send (thumb_step env).2).2) 1 0 := by
  have hth := thumb_step_none env
  have hts := (thumb_step_counts env).1
  cases h1 : env.dl_success with
  | false =>
    simp [main_branch, h1, List.countP_append, List.countP_cons,
      List.countP_nil, isDelFileEv]
  | true =>
    cases h2 : env.file_exists with
    | false =>
      simp [main_branch, h1, h2, List.countP_append, List.countP_cons,
        List.countP_nil, isDelFileEv]
    | true =>
      by_cases h3 : env.file_size > TG_LIMIT_BYTES
      · have h3' : decide (env.file_size ≤ TG_LIMIT_BYTES) = false := by
          simp only [decide_eq_false_iff_not]
          omega
        simp [main_branch, h1, h2, h3, h3', List.countP_append,
          List.countP_cons, List.countP_nil, isDelFileEv]
      · have h3' : decide (env.file_size ≤ TG_LIMIT_BYTES) = true := by
          simp only [decide_eq_true_eq]
          omega
        cases h4 : (send_attempts env.send none (List.range max_retries)).2 with
        | true =>
          simp [main_branch, h1, h2, h3, h3', hth, hts, h4, send_loop,
            List.countP_append, List.countP_cons, List.countP_nil, isDelFileEv,
            (send_attempts_counts_zero env.send none (List.range max_retries)).1]
        | false =>
          simp [main_branch, h1, h2, h3, h3', hth, hts, h4, send_loop,
            List.countP_append, List.countP_cons, List.countP_nil, isDelFileEv,
            (send_attempts_counts_zero env.send none (List.range max_retries)).1]

/-- C2, counterexample: not every audio delivery retries — the Spotify /
Yandex search branch performs exactly ONE send attempt even over a
transport that fails twice then succeeds, with no backoff sleep and no
cleanup. -/
theorem C2_counterexample :
    (search_branch envFFO).countP isSendEv = 1 ∧
    (search_branch envFFO).countP isSleepEv = 0 ∧
    (search_branch envFFO).countP isDelFileEv = 0 :=
  ⟨by decide, by decide, by decide⟩

/-- C2, amended: on the direct-download branch the retry loop makes at
most 3 attempts for every transport, and over the
fails-twice-then-succeeds transport the whole branch trace is exactly
three attempts with the 5-second backoff between attempts 1→2 and 2→3
followed by a single cleanup; the search branch sends at most once. -/
theorem C2_delivery_retry :
    (∀ send thumb, ((send_loop send thumb).1.countP isSendEv) ≤ max_retries) ∧
    main_branch envFFO urlSC =
      [.chatAction, .statusMsg "loading", .dlCall urlSC, .infoCall,
       .sendAudio 1 none, .sleepSec 5, .sendAudio 2 none, .sleepSec 5,
       .sendAudio 3 none, .delFile "downloads/t.mp3", .statusDel] ∧
    (∀ env, (search_branch env).countP isSendEv ≤ 1) := by
  refine ⟨?_, by decide, ?_⟩
  · intro send thumb
    have := send_attempts_count send thumb (List.range max_retries)
    simpa [send_loop] using this
  · intro env
    by_cases h1 : env.info_title = "" <;>
      cases h2 : env.dl_success <;>
        cases h3 : env.file_exists <;>
          cases h4 : env.send 0 <;>
            simp [search_branch, h1, h2, h3, h4, List.countP_append,
              List.countP_cons, List.countP_nil, isSendEv]

end SCBot

namespace SCBot

theorem search_branch_no_thumb (env : Env) :
    (search_branch env).countP isSendWithThumbEv = 0 ∧
    (search_branch env).countP isDelThumbEv = 0 := by
  by_cases h1 : env.info_title = "" <;>
    cases h2 : env.dl_success <;>
      cases h3 : env.file_exists <;>
        cases h4 : env.send 0 <;>
          constructor <;>
            simp [search_branch, h1, h2, h3, h4, List.countP_append,
              List.countP_cons, List.countP_nil, isSendWithThumbEv, isDelThumbEv]

theorem main_branch_no_thumb (env : Env) (url : List Char) :
    (main_branch env url).countP isSendWithThumbEv = 0 ∧
    (main_branch env url).countP isDelThumbEv = 0 := by
  have hth := thumb_step_none env
  have ht1 := (thumb_step_counts env).2.1
  have ht2 := (thumb_step_counts env).2.2.1
  have hs1 := send_attempts_none_thumb env.send (List.range max_retries)
  have hs2 := (send_attempts_counts_zero env.send none (List.range max_retries)).2
  cases h1 : env.dl_success <;>
    cases h2 : env.file_exists <;>
      by_cases h3 : env.file_size > TG_LIMIT_BYTES <;>
        cases h4 : (send_attempts env.send none (List.range max_retries)).2 <;>
          constructor <;>
            simp [main_branch, h1, h2, h3, h4, hth, ht1, ht2, hs1, hs2,
              send_loop, List.countP_append, List.countP_cons, List.countP_nil,
              isSendWithThumbEv, isDelThumbEv]

theorem handle_url_countP_zero (env : Env) (uid : Nat) (url : List Char)
    (q : Ev → Bool) (hq1 : q (.updStats uid) = false)
    (hq2 : q (.reply "unsupported service") = false)
    (hs : (search_branch env).countP q = 0)
    (hm : (main_branch env url).countP q = 0) :
    (handle_url env uid url).countP q = 0 := by
  rw [handle_url]
  cases classify url with
  | none =>
    rw [List.countP_cons, List.countP_nil, hq2]
    simp
  | some sname =>
    rw [List.countP_cons, hq1]
    simp only [Bool.false_eq_true, if_false, Nat.add_zero]
    by_cases hsp : inStr "spotify.com".toList (lowerStr url) = true
    · rw [if_pos hsp, hs]
    · rw [if_neg hsp]
      by_cases hy : (inStr "yandex".toList (lowerStr url) &&
          inStr "music".toList (lowerStr url)) = true
      · rw [if_pos hy, hs]
      · rw [if_neg hy, hm]

/-- C8: `download_thumbnail` is not defined anywhere in the program, so
the thumbnail-fetch step always yields `None` (its `NameError` is caught
and logged); every audio send in every trace carries no thumbnail, and
no thumbnail deletion ever occurs. -/
theorem C8_thumbnail_always_none (env : Env) (uid : Nat) (url : List Char) :
    (thumb_step env).2 = none ∧
    (handle_url env uid url).countP isSendWithThumbEv = 0 ∧
    (handle_url env uid url).countP isDelThumbEv = 0 :=
  ⟨thumb_step_none env,
   handle_url_countP_zero env uid url isSendWithThumbEv rfl rfl
     (search_branch_no_thumb env).1 (main_branch_no_thumb env url).1,
   handle_url_countP_zero env uid url isDelThumbEv rfl rfl
     (search_branch_no_thumb env).2 (main_branch_no_thumb env url).2⟩

/-- C9: for every URL that classifies to a supported service the trace
begins with the ledger update — before any download or search call —
and `update_user_stats` increments both the user's and the global
download counters, so the counters grow even when retrieval or delivery
later fails. -/
theorem C9_stats_before_download (env : Env) (uid : Nat) (url : List Char)
    (h : (classify url).isSome = true) :
    (∃ rest, handle_url env uid url = Ev.updStats uid :: rest) ∧
    (∀ s un fn now,
      (update_user_stats uid un fn now s).total_downloads =
        s.total_downloads + 1 ∧
      getDownloads uid (update_user_stats uid un fn now s) =
        getDownloads uid s + 1) := by
  constructor
  · cases hc : classify url with
    | none => rw [hc] at h; cases h
    | some sname =>
      rw [handle_url, hc]
      exact ⟨_, rfl⟩
  · intro s un fn now
    cases hf : findUser uid s.users with
    | none =>
      constructor <;>
        simp [update_user_stats, hf, getDownloads, findUser_mapUser_self,
          findUser_setUser_self]
    | some r =>
      constructor <;>
        simp [update_user_stats, hf, getDownloads, findUser_mapUser_self]

/-- C9, witness: the theorem applied to a concrete SoundCloud request. -/
theorem C9_witness :
    ∃ rest, handle_url envFFO 7 urlSC = Ev.updStats 7 :: rest :=
  (C9_stats_before_download envFFO 7 urlSC (by decide)).1

end SCBot
